import Mathlib

/-!
Verification of the hunk-merge core of the `rejx` tool.

The development shallowly embeds the Python functions of
`src/rejx/utils.py` (`apply_changes`, the target-path computation of
`process_rej_file`) and `src/rejx/cli.py` (the same path computation in
`diff`).  A line of text is a `List Char`; Python string operations
(`startswith`, slicing, `rstrip`, `str.replace`) are modelled with their
exact Python semantics, and `re.search` of the hunk-header pattern
`@@ -(\d+),(\d+) \+(\d+),(\d+) @@` is modelled by a leftmost scan with
maximal-munch digit runs (equivalent to the regex because every `\d+`
is followed by a non-digit literal, so no backtracking can succeed
where maximal munch fails).
-/

namespace Rejx

/-- A line of text: Python `str` as its sequence of characters. -/
abbrev Str := List Char

/-- Python `s.startswith(p)` on character lists. -/
def listStartsWith : Str → Str → Bool
  | [], _ => true
  | _ :: _, [] => false
  | a :: p, b :: s => a == b && listStartsWith p s

/-- Python `s.rstrip("\n")`: remove every trailing newline character. -/
def pyRstripNewlines (s : Str) : Str :=
  (s.reverse.dropWhile (fun c => c == '\n')).reverse

/-- Numeric value of a digit run, as Python `int` on a decimal string. -/
def digitsToNat (ds : Str) : Nat :=
  ds.foldl (fun a c => a * 10 + (c.toNat - 48)) 0

/-- If `pat` is a literal character-by-character start of `s`, return the
rest of `s`; otherwise `none`. -/
def dropLit : Str → Str → Option Str
  | [], s => some s
  | _ :: _, [] => none
  | a :: p, b :: s => if a = b then dropLit p s else none

/-- Attempt to match the regex `@@ -(\d+),(\d+) \+(\d+),(\d+) @@` at the
start of `s`, returning the value of the first capture group.  Each
`\d+` is taken as the maximal digit run, which is exactly the regex
semantics here because the pattern character after each group is not a
digit. -/
def matchHeaderAt (s : Str) : Option Nat :=
  (dropLit ['@', '@', ' ', '-'] s).bind fun s1 =>
  let d1 := s1.takeWhile Char.isDigit
  if d1.isEmpty then none else
  (dropLit [','] (s1.dropWhile Char.isDigit)).bind fun s2 =>
  let d2 := s2.takeWhile Char.isDigit
  if d2.isEmpty then none else
  (dropLit [' ', '+'] (s2.dropWhile Char.isDigit)).bind fun s3 =>
  let d3 := s3.takeWhile Char.isDigit
  if d3.isEmpty then none else
  (dropLit [','] (s3.dropWhile Char.isDigit)).bind fun s4 =>
  let d4 := s4.takeWhile Char.isDigit
  if d4.isEmpty then none else
  (dropLit [' ', '@', '@'] (s4.dropWhile Char.isDigit)).map fun _ =>
  digitsToNat d1

/-- Python `re.search(r"@@ -(\d+),(\d+) \+(\d+),(\d+) @@", line)`:
leftmost position where the pattern matches, returning group 1 (the
only group `apply_changes` reads). -/
def searchHeader : Str → Option Nat
  | [] => matchHeaderAt []
  | c :: rest =>
    match matchHeaderAt (c :: rest) with
    | some g => some g
    | none => searchHeader rest

/-- The mutable state of the `for` loop in `apply_changes`
(`src/rejx/utils.py`): `hunk_start`, `new_lines`,
`current_hunk_changes`, `processing_hunk`.  `hunk_start` is an `Int`
because Python computes `int(group(1)) - 1`, which is `-1` for a header
starting at line 0. -/
structure MergeState where
  hunkStart : Int
  newLines : List Str
  currentHunkChanges : List Str
  processingHunk : Bool
deriving DecidableEq

/-- The loop state at entry of `apply_changes`. -/
def initState : MergeState := ⟨0, [], [], false⟩

/-- Python slice `xs[a:b]` for a non-negative start `a` and a possibly
negative stop `b` (a negative stop counts from the end; out-of-range
bounds clamp, never raise). -/
def pySliceFrom (xs : List Str) (a : Nat) (b : Int) : List Str :=
  let n := xs.length
  let e : Nat := if b < 0 then (b + n).toNat else min b.toNat n
  (xs.take e).drop a

/-- The non-header part of the loop body of `apply_changes`: the
`LINES_NOT_IN_REJ_FILE` / `chunks_not_in_rej_file` bookkeeping and the
`if processing_hunk:` block.  The single element access
`target_lines[LINES_NOT_IN_REJ_FILE]` is modelled with `getElem?`;
`none` is returned exactly when Python would raise `IndexError`. -/
def bodyStep (targetLines : List Str) (st : MergeState) (line : Str) :
    Option MergeState :=
  let lcount := st.newLines.length + st.currentHunkChanges.length
  if st.processingHunk then
    if listStartsWith ['+'] line then
      some { st with currentHunkChanges :=
        st.currentHunkChanges ++ [pyRstripNewlines (line.drop 1) ++ ['\n']] }
    else if !listStartsWith ['-'] line && decide (lcount < targetLines.length) then
      match targetLines[lcount]? with
      | some t0 => some { st with currentHunkChanges := st.currentHunkChanges ++ [t0] }
      | none => none
    else
      some st
  else
    some st

/-- One iteration of the `for line in rej_lines` loop of
`apply_changes`.  A line starting with `@@` first flushes the staged
hunk (when one is being processed); if the header regex then matches,
the header branch runs and `continue`s, otherwise the line falls
through to the ordinary body. -/
def applyStep (targetLines : List Str) (st : MergeState) (line : Str) :
    Option MergeState :=
  let flushed :=
    if listStartsWith ['@', '@'] line && st.processingHunk then
      { st with newLines := st.newLines ++ st.currentHunkChanges,
                currentHunkChanges := [] }
    else st
  if listStartsWith ['@', '@'] line then
    match searchHeader line with
    | some g =>
      let hs : Int := (g : Int) - 1
      some { flushed with
             hunkStart := hs,
             processingHunk := true,
             newLines := flushed.newLines ++
               pySliceFrom targetLines flushed.newLines.length hs }
    | none => bodyStep targetLines flushed line
  else
    bodyStep targetLines flushed line

/-- The whole `for` loop of `apply_changes`. -/
def applyChangesAux (targetLines : List Str) :
    MergeState → List Str → Option MergeState
  | st, [] => some st
  | st, l :: ls =>
    match applyStep targetLines st l with
    | some st' => applyChangesAux targetLines st' ls
    | none => none

/-- The epilogue of `apply_changes`: flush the last hunk when one is in
progress, then append the remaining original lines
`target_lines[len(new_lines):]`. -/
def applyChangesFinal (targetLines : List Str) (st : MergeState) : List Str :=
  let nl := if st.processingHunk
            then st.newLines ++ st.currentHunkChanges
            else st.newLines
  nl ++ targetLines.drop nl.length

/-- Function `apply_changes(target_lines, rej_lines)` from `src/rejx/utils.py`.
The result is `none` exactly when the Python code would raise. -/
def apply_changes (targetLines rejLines : List Str) : Option (List Str) :=
  (applyChangesAux targetLines initState rejLines).map
    (applyChangesFinal targetLines)

/-- Python `path.replace(".rej", "")`: delete every non-overlapping
occurrence of `.rej`, scanning left to right.  This expression computes
the target path both in `process_rej_file` (`src/rejx/utils.py`) and in
the `diff` command (`src/rejx/cli.py`). -/
def stripRejAll : Str → Str
  | [] => []
  | [c] => [c]
  | [c, d] => [c, d]
  | [c, d, e] => [c, d, e]
  | c :: d :: e :: f :: rest =>
    if c = '.' ∧ d = 'r' ∧ e = 'e' ∧ f = 'j' then stripRejAll rest
    else c :: stripRejAll (d :: e :: f :: rest)

/-- Computation `target_file_path = rej_file_path.replace(".rej", "")`. -/
def targetPathOf (p : Str) : Str := stripRejAll p

/-- The cursor of the merge: output lines produced so far
(`len(new_lines) + len(current_hunk_changes)`). -/
def mergeCursor (st : MergeState) : Nat :=
  st.newLines.length + st.currentHunkChanges.length

/-- A rej line is treated as a hunk header iff it starts with `@@` and
the header regex matches somewhere in it. -/
def isHunkHeaderLine (l : Str) : Bool :=
  listStartsWith ['@', '@'] l && (searchHeader l).isSome

/-- A rej body line that is neither an addition, nor a deletion, nor a
valid hunk header. -/
def isContextLine (l : Str) : Bool :=
  !listStartsWith ['+'] l && !listStartsWith ['-'] l && !isHunkHeaderLine l

/-- Invariant maintained while a hunk of pure context lines is
processed: the output produced so far is exactly a prefix of the
original file. -/
def ctxInv (t : List Str) (st : MergeState) (c : Nat) : Prop :=
  st.processingHunk = true ∧
  st.newLines ++ st.currentHunkChanges = t.take c ∧ c ≤ t.length

/-- Appending a final `.rej` to a path and removing all `.rej`
occurrences gives the same result as removing them from the path alone:
no occurrence of `.rej` can straddle the boundary, because the pattern
characters `r`, `e`, `j` never coincide with the leading `.` of the
appended suffix. -/
lemma stripRejAll_append_rej (s : Str) :
    stripRejAll (s ++ ['.', 'r', 'e', 'j']) = stripRejAll s := by
  induction s using stripRejAll.induct with
  | case1 => decide
  | case2 c => simp [stripRejAll]
  | case3 c d => simp [stripRejAll]
  | case4 c d e => simp [stripRejAll]
  | case5 c d e f rest h ih => simp [stripRejAll, h, ih]
  | case6 c d e f rest h ih =>
      simp only [List.cons_append] at ih
      simp [stripRejAll, h, ih]

end Rejx

namespace Rejx

/-- C1: the claim states that merging the addition hunk
`@@ -2,1 +2,2 @@` / ` B` / `+X` into `["A\n","B\n","C\n"]` yields
`["A\n","B\n","X\n","C\n"]`.  The code instead returns
`["A\n","B\n","X\n"]`: the added line advances the merge cursor past
the index of `C\n`, so the trailing original line is dropped.  This
theorem evaluates the embedded `apply_changes` at the failing input and
records that the claimed output is not produced. -/
theorem C1_addition_hunk_code_result :
    apply_changes ["A\n".data, "B\n".data, "C\n".data]
      ["@@ -2,1 +2,2 @@".data, " B".data, "+X".data] =
      some ["A\n".data, "B\n".data, "X\n".data] ∧
    apply_changes ["A\n".data, "B\n".data, "C\n".data]
      ["@@ -2,1 +2,2 @@".data, " B".data, "+X".data] ≠
      some ["A\n".data, "B\n".data, "X\n".data, "C\n".data] := by
  decide

/-- C2: the claim states that merging the deletion hunk
`@@ -2,1 +1,0 @@` / `-B` into `["A\n","B\n","C\n"]` yields
`["A\n","C\n"]`.  The code instead returns the original
`["A\n","B\n","C\n"]`: a `-` line is skipped without advancing the
merge cursor, so the supposedly deleted line is copied back by the
final `target_lines[len(new_lines):]` extension.  This theorem
evaluates the embedded `apply_changes` at the failing input. -/
theorem C2_deletion_hunk_code_result :
    apply_changes ["A\n".data, "B\n".data, "C\n".data]
      ["@@ -2,1 +1,0 @@".data, "-B".data] =
      some ["A\n".data, "B\n".data, "C\n".data] ∧
    apply_changes ["A\n".data, "B\n".data, "C\n".data]
      ["@@ -2,1 +1,0 @@".data, "-B".data] ≠
      some ["A\n".data, "C\n".data] := by
  decide

/-- C3: merging the substitution hunk `@@ -2,3 +2,3 @@` / `-Line 2` /
`+Line 2 - Modified` / `Line 3` into
`["Line 1\n","Line 2\n","Line 3\n"]` yields
`["Line 1\n","Line 2 - Modified\n","Line 3\n"]`, exactly as the claim
states (this is the repository's own canonical test case). -/
theorem C3_substitution_hunk :
    apply_changes ["Line 1\n".data, "Line 2\n".data, "Line 3\n".data]
      ["@@ -2,3 +2,3 @@".data, "-Line 2".data,
       "+Line 2 - Modified".data, "Line 3".data] =
    some ["Line 1\n".data, "Line 2 - Modified\n".data, "Line 3\n".data] := by
  decide

/-- C4, counterexample: the claim states that for every path ending in
`.rej` the computed target path is the path with only its last four
characters removed.  The code computes `path.replace(".rej", "")`,
which removes every occurrence: on `"a.rej/b.rej"` it returns `"a/b"`,
not `"a.rej/b"`. -/
theorem C4_suffix_only_counterexample :
    targetPathOf ("a.rej/b.rej".data) ≠
      ("a.rej/b.rej".data).take (("a.rej/b.rej".data).length - 4) := by
  decide

/-- C4, amended: the target path is the `.rej` path with every
occurrence of the substring `.rej` removed (Python
`str.replace(".rej", "")`, used identically by `process_rej_file` and
the `diff` command); in particular, when `.rej` occurs nowhere in the
stem (so `stripRejAll` leaves the stem fixed), the target of
`stem + ".rej"` is exactly the stem, i.e. suffix removal. -/
theorem C4_target_path_amended (q : Str) (h : stripRejAll q = q) :
    targetPathOf (q ++ ['.', 'r', 'e', 'j']) = q := by
  unfold targetPathOf
  rw [stripRejAll_append_rej, h]

/-- Witness for C4's amended theorem at the concrete stem
`"sample.txt"`. -/
theorem C4_target_path_amended_witness :
    stripRejAll ("sample.txt".data) = "sample.txt".data ∧
    targetPathOf ("sample.txt".data ++ ['.', 'r', 'e', 'j']) =
      "sample.txt".data :=
  ⟨by decide, C4_target_path_amended ("sample.txt".data) (by decide)⟩

end Rejx

namespace Rejx

/-- Every branch of the non-header loop body returns `some` state that
differs from the input only by lines appended to the staging buffer. -/
lemma bodyStep_shape (t : List Str) (st : MergeState) (l : Str) :
    ∃ ex, bodyStep t st l =
      some { st with currentHunkChanges := st.currentHunkChanges ++ ex } := by
  obtain ⟨hs, nl, cur, ph⟩ := st
  unfold bodyStep
  by_cases hp : ph
  · simp only [hp, if_true]
    by_cases hplus : listStartsWith ['+'] l = true
    · exact ⟨[pyRstripNewlines (l.drop 1) ++ ['\n']], by simp [hplus]⟩
    · simp only [Bool.not_eq_true] at hplus
      simp only [hplus, Bool.false_eq_true, if_false]
      by_cases hcond : (!listStartsWith ['-'] l &&
          decide (nl.length + cur.length < t.length)) = true
      · simp only [hcond, if_true]
        have hlt : nl.length + cur.length < t.length := by
          simp only [Bool.and_eq_true, decide_eq_true_eq] at hcond
          exact hcond.2
        rw [List.getElem?_eq_getElem hlt]
        exact ⟨[t[nl.length + cur.length]], rfl⟩
      · simp only [Bool.not_eq_true] at hcond
        simp only [hcond, Bool.false_eq_true, if_false]
        exact ⟨[], by simp⟩
  · simp only [Bool.not_eq_true] at hp
    simp only [hp, Bool.false_eq_true, if_false]
    exact ⟨[], by simp⟩

/-- On a line that does not start with `@@`, the loop body is exactly
the non-header body. -/
lemma applyStep_no_atat (t : List Str) (st : MergeState) (l : Str)
    (hst : listStartsWith ['@', '@'] l = false) :
    applyStep t st l = bodyStep t st l := by
  unfold applyStep
  simp [hst]

/-- On a `@@` line whose header regex fails while a hunk is being
processed, the loop flushes the staged hunk and then runs the ordinary
body on the flushed state. -/
lemma applyStep_atat_nomatch (t : List Str) (st : MergeState) (l : Str)
    (hst : listStartsWith ['@', '@'] l = true)
    (hsg : searchHeader l = none) (hp : st.processingHunk = true) :
    applyStep t st l =
      bodyStep t ⟨st.hunkStart, st.newLines ++ st.currentHunkChanges, [], true⟩ l := by
  obtain ⟨hs, nl, cur, ph⟩ := st
  simp only at hp
  subst hp
  unfold applyStep
  simp [hst, hsg]

/-- On a `@@` line whose header regex fails while no hunk is being
processed, the loop runs the ordinary body unchanged. -/
lemma applyStep_atat_nomatch_idle (t : List Str) (st : MergeState) (l : Str)
    (hst : listStartsWith ['@', '@'] l = true)
    (hsg : searchHeader l = none) (hp : st.processingHunk = false) :
    applyStep t st l = bodyStep t st l := by
  obtain ⟨hs, nl, cur, ph⟩ := st
  simp only at hp
  subst hp
  unfold applyStep
  simp [hst, hsg]

/-- A matching header line while a hunk is in progress: flush the
staged hunk, then copy the untouched original region from the current
output length up to the new hunk start. -/
lemma applyStep_header (t : List Str) (st : MergeState) (l : Str) (g : Nat)
    (hst : listStartsWith ['@', '@'] l = true)
    (hsg : searchHeader l = some g) (hp : st.processingHunk = true) :
    applyStep t st l =
      some ⟨(g : Int) - 1,
            (st.newLines ++ st.currentHunkChanges) ++
              pySliceFrom t (st.newLines.length + st.currentHunkChanges.length)
                ((g : Int) - 1),
            [], true⟩ := by
  obtain ⟨hs, nl, cur, ph⟩ := st
  simp only at hp
  subst hp
  unfold applyStep
  simp [hst, hsg]

/-- A matching header line while no hunk is in progress (the first
header of the file): no flush happens. -/
lemma applyStep_header_fresh (t : List Str) (st : MergeState) (l : Str) (g : Nat)
    (hst : listStartsWith ['@', '@'] l = true)
    (hsg : searchHeader l = some g) (hp : st.processingHunk = false) :
    applyStep t st l =
      some ⟨(g : Int) - 1,
            st.newLines ++ pySliceFrom t st.newLines.length ((g : Int) - 1),
            st.currentHunkChanges, true⟩ := by
  obtain ⟨hs, nl, cur, ph⟩ := st
  simp only at hp
  subst hp
  unfold applyStep
  simp [hst, hsg]

/-- The loop body never fails: the only element access is guarded by
`chunks_not_in_rej_file`. -/
lemma applyStep_isSome (t : List Str) (st : MergeState) (l : Str) :
    (applyStep t st l).isSome := by
  by_cases hst : listStartsWith ['@', '@'] l = true
  · cases hsg : searchHeader l with
    | some g =>
      cases hp : st.processingHunk
      · rw [applyStep_header_fresh t st l g hst hsg hp]; rfl
      · rw [applyStep_header t st l g hst hsg hp]; rfl
    | none =>
      cases hp : st.processingHunk
      · rw [applyStep_atat_nomatch_idle t st l hst hsg hp]
        obtain ⟨ex, hex⟩ := bodyStep_shape t st l
        rw [hex]; rfl
      · rw [applyStep_atat_nomatch t st l hst hsg hp]
        obtain ⟨ex, hex⟩ := bodyStep_shape t _ l
        rw [hex]; rfl
  · simp only [Bool.not_eq_true] at hst
    rw [applyStep_no_atat t st l hst]
    obtain ⟨ex, hex⟩ := bodyStep_shape t st l
    rw [hex]; rfl

end Rejx

namespace Rejx

/-- The whole loop never fails. -/
lemma applyChangesAux_isSome (t : List Str) :
    ∀ (ls : List Str) (st : MergeState), (applyChangesAux t st ls).isSome := by
  intro ls
  induction ls with
  | nil => intro st; rfl
  | cons l ls ih =>
    intro st
    cases h : applyStep t st l with
    | some st2 =>
      simp only [applyChangesAux, h]
      exact ih st2
    | none =>
      have := applyStep_isSome t st l
      rw [h] at this
      simp at this

/-- One loop iteration never decreases the merge cursor. -/
lemma applyStep_cursor_mono (t : List Str) (st : MergeState) (l : Str)
    (st' : MergeState) (h : applyStep t st l = some st') :
    mergeCursor st ≤ mergeCursor st' := by
  by_cases hst : listStartsWith ['@', '@'] l = true
  · cases hsg : searchHeader l with
    | some g =>
      cases hp : st.processingHunk
      · rw [applyStep_header_fresh t st l g hst hsg hp] at h
        cases h
        simp [mergeCursor]
      · rw [applyStep_header t st l g hst hsg hp] at h
        cases h
        simp [mergeCursor]
    | none =>
      cases hp : st.processingHunk
      · rw [applyStep_atat_nomatch_idle t st l hst hsg hp] at h
        obtain ⟨ex, hex⟩ := bodyStep_shape t st l
        rw [hex] at h
        cases h
        simp [mergeCursor]
      · rw [applyStep_atat_nomatch t st l hst hsg hp] at h
        obtain ⟨ex, hex⟩ := bodyStep_shape t _ l
        rw [hex] at h
        cases h
        simp [mergeCursor]
  · simp only [Bool.not_eq_true] at hst
    rw [applyStep_no_atat t st l hst] at h
    obtain ⟨ex, hex⟩ := bodyStep_shape t st l
    rw [hex] at h
    cases h
    simp [mergeCursor]

/-- The cursor is monotone along any run of the loop. -/
lemma applyChangesAux_cursor_mono (t : List Str) :
    ∀ (ls : List Str) (st st' : MergeState),
      applyChangesAux t st ls = some st' → mergeCursor st ≤ mergeCursor st' := by
  intro ls
  induction ls with
  | nil =>
    intro st st' h
    cases h
    exact le_refl _
  | cons l ls ih =>
    intro st st' h
    cases hstep : applyStep t st l with
    | some st2 =>
      simp only [applyChangesAux, hstep] at h
      exact le_trans (applyStep_cursor_mono t st l st2 hstep) (ih st2 st' h)
    | none =>
      simp only [applyChangesAux, hstep] at h
      exact Option.noConfusion h

end Rejx

namespace Rejx

/-- C5: `apply_changes` is total — it returns `some` result for every
pair of inputs (the embedded element access fails exactly where Python
would raise, and it never does) — and a line beginning with `@@` whose
header regex fails starts no hunk: the step succeeds and leaves
`processing_hunk` and `hunk_start` unchanged. -/
theorem C5_merge_total_and_malformed_header_tolerated (t rej : List Str) :
    (apply_changes t rej).isSome = true ∧
    ∀ (st : MergeState) (l : Str),
      listStartsWith ['@', '@'] l = true → searchHeader l = none →
      ∃ st', applyStep t st l = some st' ∧
        st'.processingHunk = st.processingHunk ∧
        st'.hunkStart = st.hunkStart := by
  constructor
  · obtain ⟨st', hst'⟩ :=
      Option.isSome_iff_exists.mp (applyChangesAux_isSome t rej initState)
    simp [apply_changes, hst']
  · intro st l hst hsg
    cases hp : st.processingHunk
    · rw [applyStep_atat_nomatch_idle t st l hst hsg hp]
      obtain ⟨ex, hex⟩ := bodyStep_shape t st l
      exact ⟨_, hex, hp, rfl⟩
    · rw [applyStep_atat_nomatch t st l hst hsg hp]
      obtain ⟨ex, hex⟩ :=
        bodyStep_shape t ⟨st.hunkStart, st.newLines ++ st.currentHunkChanges, [], true⟩ l
      exact ⟨_, hex, by simp [hp], rfl⟩

/-- Witness for C5 at concrete inputs, including a malformed `@@` line. -/
theorem C5_merge_total_witness :
    (apply_changes ["A\n".data] ["@@ bad header @@".data]).isSome = true ∧
    ∃ st', applyStep ["A\n".data] initState ("@@ bad header @@".data) = some st' ∧
      st'.processingHunk = initState.processingHunk ∧
      st'.hunkStart = initState.hunkStart :=
  ⟨(C5_merge_total_and_malformed_header_tolerated ["A\n".data] ["@@ bad header @@".data]).1,
   (C5_merge_total_and_malformed_header_tolerated ["A\n".data] ["@@ bad header @@".data]).2
     initState ("@@ bad header @@".data) (by decide) (by decide)⟩

/-- C9: the merge cursor `len(new_lines) + len(current_hunk_changes)`
never decreases, neither across one processed rej line nor across any
run of the loop. -/
theorem C9_merge_cursor_never_decreases :
    (∀ (t : List Str) (st : MergeState) (l : Str) (st' : MergeState),
       applyStep t st l = some st' → mergeCursor st ≤ mergeCursor st') ∧
    (∀ (t ls : List Str) (st st' : MergeState),
       applyChangesAux t st ls = some st' → mergeCursor st ≤ mergeCursor st') :=
  ⟨applyStep_cursor_mono, fun t ls => applyChangesAux_cursor_mono t ls⟩

/-- Witness for C9 at a concrete step: one addition line grows the
cursor from 2 to 3. -/
theorem C9_merge_cursor_witness :
    mergeCursor ⟨0, [['a']], [['b']], true⟩ ≤
      mergeCursor ⟨0, [['a']], [['b'], ['x', '\n']], true⟩ :=
  C9_merge_cursor_never_decreases.1 [] ⟨0, [['a']], [['b']], true⟩ ("+x".data)
    ⟨0, [['a']], [['b'], ['x', '\n']], true⟩ (by decide)

/-- C10: a rej line starts a hunk (setting `processing_hunk` and
`hunk_start`) iff it begins with `@@` and contains a match of the
header regex anywhere; extra text between the leading `@@` and the
numeric pattern is accepted, while a line with the pattern but without
the leading `@@` is an ordinary body line. -/
theorem C10_header_line_classification :
    (∀ (t : List Str) (st : MergeState) (l : Str) (st' : MergeState),
       applyStep t st l = some st' →
       (isHunkHeaderLine l = true →
          st'.processingHunk = true ∧
          ∃ g, searchHeader l = some g ∧ st'.hunkStart = (g : Int) - 1) ∧
       (isHunkHeaderLine l = false →
          st'.processingHunk = st.processingHunk ∧
          st'.hunkStart = st.hunkStart)) ∧
    isHunkHeaderLine ("@@ junk @@ -1,1 +1,1 @@".data) = true ∧
    isHunkHeaderLine ("junk @@ -1,1 +1,1 @@".data) = false := by
  refine ⟨?_, by decide, by decide⟩
  intro t st l st' h
  constructor
  · intro hh
    simp only [isHunkHeaderLine, Bool.and_eq_true, Option.isSome_iff_exists] at hh
    obtain ⟨hst, g, hsg⟩ := hh
    cases hp : st.processingHunk
    · rw [applyStep_header_fresh t st l g hst hsg hp] at h
      cases h
      exact ⟨rfl, g, hsg, rfl⟩
    · rw [applyStep_header t st l g hst hsg hp] at h
      cases h
      exact ⟨rfl, g, hsg, rfl⟩
  · intro hh
    by_cases hst : listStartsWith ['@', '@'] l = true
    · have hsg : searchHeader l = none := by
        cases hsearch : searchHeader l with
        | none => rfl
        | some g => simp [isHunkHeaderLine, hst, hsearch] at hh
      cases hp : st.processingHunk
      · rw [applyStep_atat_nomatch_idle t st l hst hsg hp] at h
        obtain ⟨ex, hex⟩ := bodyStep_shape t st l
        rw [hex] at h
        cases h
        exact ⟨hp, rfl⟩
      · rw [applyStep_atat_nomatch t st l hst hsg hp] at h
        obtain ⟨ex, hex⟩ := bodyStep_shape t _ l
        rw [hex] at h
        cases h
        exact ⟨by simp [hp], rfl⟩
    · simp only [Bool.not_eq_true] at hst
      rw [applyStep_no_atat t st l hst] at h
      obtain ⟨ex, hex⟩ := bodyStep_shape t st l
      rw [hex] at h
      cases h
      exact ⟨rfl, rfl⟩

/-- Witness for C10 at the concrete header `@@ -1,1 +1,1 @@`. -/
theorem C10_header_line_witness :
    (MergeState.processingHunk ⟨0, [], [], true⟩ = true ∧
      ∃ g, searchHeader ("@@ -1,1 +1,1 @@".data) = some g ∧
        MergeState.hunkStart ⟨0, [], [], true⟩ = (g : Int) - 1) :=
  (C10_header_line_classification.1 [] initState ("@@ -1,1 +1,1 @@".data)
      ⟨0, [], [], true⟩ (by decide)).1 (by decide)

end Rejx

namespace Rejx

/-- While no hunk has started, a non-header line leaves the loop state
completely unchanged. -/
lemma applyChangesAux_no_header (t : List Str) :
    ∀ (ls : List Str) (st : MergeState), st.processingHunk = false →
      (∀ l ∈ ls, isHunkHeaderLine l = false) →
      applyChangesAux t st ls = some st := by
  intro ls
  induction ls with
  | nil => intro st _ _; rfl
  | cons l ls ih =>
    intro st hp hall
    have hl := hall l (List.mem_cons_self l ls)
    have hstep : applyStep t st l = some st := by
      by_cases hst : listStartsWith ['@', '@'] l = true
      · have hsg : searchHeader l = none := by
          cases hs2 : searchHeader l with
          | none => rfl
          | some g => simp [isHunkHeaderLine, hst, hs2] at hl
        rw [applyStep_atat_nomatch_idle t st l hst hsg hp]
        unfold bodyStep
        simp [hp]
      · simp only [Bool.not_eq_true] at hst
        rw [applyStep_no_atat t st l hst]
        unfold bodyStep
        simp [hp]
    simp only [applyChangesAux, hstep]
    exact ih st hp (fun x hx => hall x (List.mem_cons_of_mem l hx))

/-- C6: if no rej line is a valid hunk header, `apply_changes` returns
the target lines unchanged — every leading or stray line (including
`---`/`+++` file identification lines) is silently ignored. -/
theorem C6_no_header_returns_target (t rej : List Str)
    (h : ∀ l ∈ rej, isHunkHeaderLine l = false) :
    apply_changes t rej = some t := by
  unfold apply_changes
  rw [applyChangesAux_no_header t rej initState rfl h]
  simp [applyChangesFinal, initState]

/-- Witness for C6: a rej body with only `---`/`+++` lines and stray
text leaves the target untouched. -/
theorem C6_no_header_witness :
    apply_changes ["A\n".data, "B\n".data]
      ["--- sample.txt\n".data, "+++ sample.txt\n".data, "stray\n".data] =
    some ["A\n".data, "B\n".data] :=
  C6_no_header_returns_target ["A\n".data, "B\n".data]
    ["--- sample.txt\n".data, "+++ sample.txt\n".data, "stray\n".data]
    (by decide)

end Rejx

namespace Rejx

/-- The non-header body on a context line, when an original line
remains at the cursor: that original line is staged. -/
lemma bodyStep_context_lt (t : List Str) (st : MergeState) (l : Str) (c : Nat)
    (hp : st.processingHunk = true)
    (h1 : listStartsWith ['+'] l = false) (h2 : listStartsWith ['-'] l = false)
    (hidx : st.newLines.length + st.currentHunkChanges.length = c)
    (hc : c < t.length) :
    bodyStep t st l =
      some { st with currentHunkChanges := st.currentHunkChanges ++ [t.get ⟨c, hc⟩] } := by
  subst hidx
  unfold bodyStep
  simp [hp, h1, h2, hc, List.getElem?_eq_getElem hc]

/-- The non-header body on a context line, when the original file is
exhausted: the state is unchanged. -/
lemma bodyStep_context_ge (t : List Str) (st : MergeState) (l : Str) (c : Nat)
    (hp : st.processingHunk = true)
    (h1 : listStartsWith ['+'] l = false) (h2 : listStartsWith ['-'] l = false)
    (hidx : st.newLines.length + st.currentHunkChanges.length = c)
    (hc : ¬ c < t.length) :
    bodyStep t st l = some st := by
  subst hidx
  unfold bodyStep
  simp [hp, h1, h2, hc]

/-- One loop iteration on a context line preserves the prefix
invariant. -/
lemma ctxInv_step (t : List Str) (st : MergeState) (c : Nat) (l : Str)
    (hinv : ctxInv t st c) (hl : isContextLine l = true) :
    ∃ st' c', applyStep t st l = some st' ∧ ctxInv t st' c' := by
  obtain ⟨hp, hcat, hcn⟩ := hinv
  simp only [isContextLine, Bool.and_eq_true, Bool.not_eq_true'] at hl
  obtain ⟨⟨h1, h2⟩, h3⟩ := hl
  have hlen : st.newLines.length + st.currentHunkChanges.length = c := by
    have h4 := congrArg List.length hcat
    simp only [List.length_append, List.length_take] at h4
    omega
  by_cases hst : listStartsWith ['@', '@'] l = true
  · have hsg : searchHeader l = none := by
      cases hs2 : searchHeader l with
      | none => rfl
      | some g => simp [isHunkHeaderLine, hst, hs2] at h3
    rw [applyStep_atat_nomatch t st l hst hsg hp]
    have hlen2 : (st.newLines ++ st.currentHunkChanges).length + ([] : List Str).length = c := by
      simp [List.length_append]
      omega
    by_cases hc : c < t.length
    · rw [bodyStep_context_lt t _ l c rfl h1 h2 hlen2 hc]
      refine ⟨_, c + 1, rfl, rfl, ?_, by omega⟩
      show (st.newLines ++ st.currentHunkChanges) ++ ([] ++ [t.get ⟨c, hc⟩]) = t.take (c + 1)
      rw [List.take_succ, List.getElem?_eq_getElem hc]
      simp [hcat]
    · rw [bodyStep_context_ge t _ l c rfl h1 h2 hlen2 hc]
      exact ⟨_, c, rfl, rfl, by simpa using hcat, hcn⟩
  · simp only [Bool.not_eq_true] at hst
    rw [applyStep_no_atat t st l hst]
    by_cases hc : c < t.length
    · rw [bodyStep_context_lt t st l c hp h1 h2 hlen hc]
      refine ⟨_, c + 1, rfl, hp, ?_, by omega⟩
      show st.newLines ++ (st.currentHunkChanges ++ [t.get ⟨c, hc⟩]) = t.take (c + 1)
      rw [List.take_succ, List.getElem?_eq_getElem hc, ← List.append_assoc, hcat]
      simp
    · rw [bodyStep_context_ge t st l c hp h1 h2 hlen hc]
      exact ⟨_, c, rfl, hp, hcat, hcn⟩

/-- Running the loop over context lines only preserves the prefix
invariant. -/
lemma ctxInv_run (t : List Str) :
    ∀ (ctx : List Str) (st : MergeState) (c : Nat),
      ctxInv t st c → (∀ l ∈ ctx, isContextLine l = true) →
      ∃ st' c', applyChangesAux t st ctx = some st' ∧ ctxInv t st' c' := by
  intro ctx
  induction ctx with
  | nil => intro st c hinv _; exact ⟨st, c, rfl, hinv⟩
  | cons l ctx ih =>
    intro st c hinv hall
    obtain ⟨st2, c2, hstep, hinv2⟩ :=
      ctxInv_step t st c l hinv (hall l (List.mem_cons_self l ctx))
    obtain ⟨st3, c3, hrun, hinv3⟩ :=
      ih st2 c2 hinv2 (fun x hx => hall x (List.mem_cons_of_mem l hx))
    exact ⟨st3, c3, by simp only [applyChangesAux, hstep]; exact hrun, hinv3⟩

/-- The initial slice copied by a header starting from an empty output
is a prefix of the original file. -/
lemma pySliceFrom_zero_shape (t : List Str) (b : Int) :
    ∃ e, e ≤ t.length ∧ pySliceFrom t 0 b = t.take e := by
  unfold pySliceFrom
  by_cases hb : b < 0
  · refine ⟨(b + t.length).toNat, by omega, by simp [hb]⟩
  · refine ⟨min b.toNat t.length, Nat.min_le_right _ _, by simp [hb]⟩

end Rejx

namespace Rejx

/-- C7: a single valid hunk header followed only by context lines that
match the original at the hunk's declared position merges to the
original file unchanged (the algorithm re-confirms context from the
original, so the output is exactly a prefix of the original followed by
its remainder). -/
theorem C7_noop_hunk_is_identity (t : List Str) (hdr : Str) (g : Nat)
    (ctx : List Str)
    (hst : listStartsWith ['@', '@'] hdr = true)
    (hsg : searchHeader hdr = some g)
    (hctx : ∀ l ∈ ctx, isContextLine l = true)
    (hmatch : ∀ j, j < ctx.length → ctx[j]? = t[(g - 1) + j]?) :
    apply_changes t (hdr :: ctx) = some t := by
  have hstep := applyStep_header_fresh t initState hdr g hst hsg rfl
  obtain ⟨e, he, hslice⟩ := pySliceFrom_zero_shape t ((g : Int) - 1)
  simp only [initState, List.nil_append, List.length_nil] at hstep
  rw [hslice] at hstep
  have hinv1 : ctxInv t ⟨(g : Int) - 1, t.take e, [], true⟩ e :=
    ⟨rfl, by simp, he⟩
  obtain ⟨st', c', hrun, hp', hcat', hcn'⟩ := ctxInv_run t ctx _ e hinv1 hctx
  unfold apply_changes
  have haux : applyChangesAux t initState (hdr :: ctx) = some st' := by
    simp only [applyChangesAux,
      show applyStep t initState hdr =
        some ⟨(g : Int) - 1, t.take e, [], true⟩ from hstep]
    exact hrun
  rw [haux]
  show some (applyChangesFinal t st') = some t
  refine congrArg some ?_
  unfold applyChangesFinal
  simp [hp', hcat', List.length_take, Nat.min_eq_left hcn', List.take_append_drop]

/-- Witness for C7: header `@@ -1,2 +1,2 @@` and context matching the
two lines of the file. -/
theorem C7_noop_hunk_witness :
    apply_changes ["A\n".data, "B\n".data]
      ["@@ -1,2 +1,2 @@".data, "A\n".data, "B\n".data] =
    some ["A\n".data, "B\n".data] :=
  C7_noop_hunk_is_identity ["A\n".data, "B\n".data] ("@@ -1,2 +1,2 @@".data) 1
    ["A\n".data, "B\n".data] (by decide) (by decide) (by decide) (by decide)

end Rejx

namespace Rejx

/-- The loop processes a concatenation of rej-line blocks left to
right: the state after the first block feeds the second. -/
lemma applyChangesAux_append (t : List Str) :
    ∀ (l1 l2 : List Str) (st : MergeState),
      applyChangesAux t st (l1 ++ l2) =
        (applyChangesAux t st l1).bind fun s => applyChangesAux t s l2 := by
  intro l1
  induction l1 with
  | nil => intro l2 st; rfl
  | cons l l1 ih =>
    intro l2 st
    cases h : applyStep t st l with
    | some st2 =>
      simp only [List.cons_append, applyChangesAux, h]
      exact ih l2 st2
    | none => simp only [List.cons_append, applyChangesAux, h]; rfl

/-- A non-negative Python slice stop written as `(g : Int) - 1`. -/
lemma pySliceFrom_of_pos (t : List Str) (a : Nat) (g : Nat)
    (h1 : 1 ≤ g) (h2 : g - 1 ≤ t.length) :
    pySliceFrom t a ((g : Int) - 1) = (t.take (g - 1)).drop a := by
  unfold pySliceFrom
  have hb : ¬ ((g : Int) - 1 < 0) := by omega
  have hn : ((g : Int) - 1).toNat = g - 1 := by omega
  simp only [hb, if_false, hn, Nat.min_eq_left h2]

/-- C8: hunks apply in header order — the loop threads its state
through consecutive blocks of rej lines — and on a second (or later)
valid header the original lines lying strictly between the already
produced output and the new hunk start are copied verbatim exactly
once, after the previous hunk's staged lines are flushed. -/
theorem C8_hunks_in_order_between_region_once :
    (∀ (t : List Str) (l1 l2 : List Str) (st : MergeState),
       applyChangesAux t st (l1 ++ l2) =
         (applyChangesAux t st l1).bind fun s => applyChangesAux t s l2) ∧
    (∀ (t : List Str) (st : MergeState) (l : Str) (g : Nat),
       st.processingHunk = true →
       listStartsWith ['@', '@'] l = true →
       searchHeader l = some g →
       1 ≤ g → g - 1 ≤ t.length →
       applyStep t st l =
         some ⟨(g : Int) - 1,
               (st.newLines ++ st.currentHunkChanges) ++
                 ((t.take (g - 1)).drop
                   (st.newLines.length + st.currentHunkChanges.length)),
               [], true⟩) := by
  constructor
  · exact applyChangesAux_append
  · intro t st l g hp hst hsg h1 h2
    rw [applyStep_header t st l g hst hsg hp]
    rw [pySliceFrom_of_pos t _ g h1 h2]

/-- Witness for C8: with one hunk already staged and cursor 1, the
header `@@ -3,1 +3,1 @@` flushes it and copies the single original
line strictly between the cursor and the new hunk start. -/
theorem C8_hunks_in_order_witness :
    applyChangesAux ["A\n".data] (⟨0, [], [], false⟩ : MergeState)
        (["x".data] ++ ["y".data]) =
      ((applyChangesAux ["A\n".data] ⟨0, [], [], false⟩ ["x".data]).bind fun s =>
        applyChangesAux ["A\n".data] s ["y".data]) ∧
    applyStep ["A\n".data, "B\n".data, "C\n".data]
        ⟨0, ["A\n".data], [], true⟩ ("@@ -3,1 +3,1 @@".data) =
      some ⟨(3 : Int) - 1,
            (["A\n".data] ++ []) ++
              ((["A\n".data, "B\n".data, "C\n".data].take (3 - 1)).drop
                (["A\n".data].length + ([] : List Str).length)),
            [], true⟩ :=
  ⟨C8_hunks_in_order_between_region_once.1 ["A\n".data] ["x".data] ["y".data] _,
   C8_hunks_in_order_between_region_once.2
     ["A\n".data, "B\n".data, "C\n".data] ⟨0, ["A\n".data], [], true⟩
     ("@@ -3,1 +3,1 @@".data) 3 rfl (by decide) (by decide) (by decide) (by decide)⟩

end Rejx
